import Mathlib

/-! Shallow embedding of the repost-detection bot (`src/main.rs`).

Modelling conventions:
* `ImageHash` values are fixed-width bit vectors, modelled as `List Bool`;
  the `img_hash` crate's `dist` is the Hamming distance.
* Discord users are identified by a `Nat`, message links by a `String`.
* Timestamps are whole days as `Int`; `signed_duration_since(..).num_days()`
  becomes integer subtraction (time is modelled at day granularity).
* Network effects are inputs: each attachment carries the result of
  `get_attachment_hash` for it (`Option (List Bool)`, `none` on a failed
  download or decode), and a `fetch` oracle gives the result of
  `get_embedded_hash` for each embed url.
* Rust `HashSet`s are modelled as lists with a membership-guarded insert;
  the unspecified iteration order becomes list order.
* Sending a reply (`msg.reply_mention`) is modelled by emitting a `Notice`
  value; a failed send is only logged by the bot, so it is not modelled.
-/

/-- Hamming distance between two bit vectors, modelling `ImageHash::dist`
(hashes produced by the same hasher always have equal width). -/
def hashDist : List Bool → List Bool → Nat
  | a :: as, b :: bs => (if a == b then 0 else 1) + hashDist as bs
  | _, _ => 0

/-- Test whether the first char list is a leading segment of the second. -/
def leadsWith : List Char → List Char → Bool
  | [], _ => true
  | _ :: _, [] => false
  | a :: as, b :: bs => a == b && leadsWith as bs

/-- Substring containment over char lists, modelling Rust `str::contains`. -/
def containsSub (pat : List Char) : List Char → Bool
  | [] => leadsWith pat []
  | c :: rest => leadsWith pat (c :: rest) || containsSub pat rest

/-- The literal checked by `msg.content.contains("--allow")`. -/
def allowPat : List Char := "--allow".data

/-- Collecting an iterator of `String`s into a `HashSet`: duplicates are
dropped (we keep the first occurrence; the set's order is unspecified in
the source, list order stands in for it). -/
def dedupFirst : List String → List String
  | [] => []
  | x :: xs => x :: (dedupFirst xs).filter (fun y => y != x)

/-- HashSet insertion: a no-op when an equal element is already present,
otherwise the element is added. -/
def insertIfAbsent {α : Type} [BEq α] (s : List α) (a : α) : List α :=
  if s.contains a then s else s ++ [a]

/-- Metadata stored in the image cache (`ImageMetadata` in the source). -/
structure ImageMetadata where
  hash : List Bool
  timestamp : Int
  user : Nat
  msg_link : String
deriving DecidableEq

/-- Metadata stored in the link cache (`LinkMetadata` in the source). -/
structure LinkMetadata where
  url : String
  timestamp : Int
  user : Nat
  msg_link : String
deriving DecidableEq

/-- A candidate image hash together with where it came from
(`HashMetadata` in the source; `source_type` is `"embedded"` or
`"attachment"`). -/
structure HashMetadata where
  hash : List Bool
  source_type : String
deriving DecidableEq

/-- Bot configuration (`Config` in the source); `cache_limit` is a `u64`
parsed from the environment, modelled as a `Nat`. -/
structure Config where
  cache_limit : Nat
  ignored_types : List String
deriving DecidableEq

/-- The shared bot state held in serenity's `TypeMap`: the two content
caches and the two allow sets, plus the configuration. -/
structure BotState where
  config : Config
  hashCache : List ImageMetadata
  linkCache : List LinkMetadata
  allowedLinks : List String
  allowedHashes : List (List Bool)
deriving DecidableEq

/-- An incoming Discord message, carrying exactly the data the handler
reads from it. Each attachment is represented by the hash
`get_attachment_hash` would produce for it; each embed by its optional
`url` field. -/
structure Msg where
  authorBot : Bool
  content : List Char
  author : Nat
  timestamp : Int
  msgLink : String
  attachments : List (Option (List Bool))
  embeds : List (Option String)
deriving DecidableEq

/-- A repost notice sent as a reply: it mentions the prior submitter,
says how many days ago the content was seen, and links the prior
message. -/
structure Notice where
  priorUser : Nat
  priorLink : String
  daysBetween : Int
deriving DecidableEq

/-- Strip a single leading plus sign, as Rust's unsigned integer parser
accepts one. -/
def stripPlus (cs : List Char) : List Char :=
  match cs with
  | c :: rest => if c == '+' then rest else c :: rest
  | [] => []

/-- Numeric value of a digit string. -/
def digitsVal (cs : List Char) : Nat :=
  cs.foldl (fun acc c => acc * 10 + (c.toNat - 48)) 0

/-- Model of Rust `str::parse::<u64>()`: an optional leading `+`, then a
nonempty run of ASCII digits whose value fits in 64 bits; anything else
(including a leading minus sign) fails. -/
def parseU64 (s : String) : Option Nat :=
  let cs := stripPlus s.data
  if cs.isEmpty then none
  else if cs.all Char.isDigit then
    if digitsVal cs < 2 ^ 64 then some (digitsVal cs) else none
  else none

/-- Split a char list at commas, modelling Rust `str::split(",")` (the
empty string yields one empty field, as in Rust). -/
def splitOnComma : List Char → List (List Char)
  | [] => [[]]
  | c :: rest =>
    if c == ',' then [] :: splitOnComma rest
    else
      match splitOnComma rest with
      | [] => [[c]]
      | g :: gs => (c :: g) :: gs

/-- String-level comma split used for `REPOST_IGNORED_TYPES`. -/
def splitComma (s : String) : List String :=
  (splitOnComma s.data).map (fun cs => String.mk cs)

/-- Model of `read_config`: the two environment variables are inputs
(`none` when unset). A missing variable or a failed `u64` parse panics in
the source, modelled as `none` (the process does not start). -/
def read_config (cacheVar : Option String) (ignoredVar : Option String) : Option Config :=
  match cacheVar with
  | none => none
  | some cs =>
    match parseU64 cs with
    | none => none
    | some n =>
      match ignoredVar with
      | none => none
      | some istr => some ⟨n, splitComma istr⟩

/-- Model of `is_ignored_type`: note the source compares against the
string `"links"` for embeds (and `"attachment"` for attachments). -/
def is_ignored_type (m : Msg) (config : Config) : Bool :=
  let ignore_attached := config.ignored_types.contains "attachment"
  let ignore_links := config.ignored_types.contains "links"
  (ignore_attached && !m.attachments.isEmpty) || (!m.embeds.isEmpty && ignore_links)

/-- The embed urls of a message (`url` present). -/
def embedUrls (m : Msg) : List String :=
  m.embeds.filterMap id

/-- Model of `set_allowed`: when the message has embeds, their urls are
collected into a set and inserted into the allowed-links set (the
`url.parse::<String>()` in the source is infallible); every attachment
that hashes successfully has its hash inserted into the allowed-hashes
set. -/
def set_allowed (st : BotState) (m : Msg) : BotState :=
  let st1 :=
    if !m.embeds.isEmpty then
      let url_matches := dedupFirst (embedUrls m)
      { st with allowedLinks := url_matches.foldl insertIfAbsent st.allowedLinks }
    else st
  { st1 with allowedHashes := (m.attachments.filterMap id).foldl insertIfAbsent st1.allowedHashes }

/-- The `for url in url_matches` loop of the handler: an exact-url cache
hit emits a notice naming the stored submitter; a miss inserts a new
`LinkMetadata` built from the current message. -/
def linkLoop (now : Int) (m : Msg) :
    List String → List LinkMetadata → List Notice → List LinkMetadata × List Notice
  | [], cache, notices => (cache, notices)
  | url :: rest, cache, notices =>
    match cache.find? (fun l => l.url == url) with
    | some l => linkLoop now m rest cache (notices ++ [⟨l.user, l.msg_link, now - l.timestamp⟩])
    | none => linkLoop now m rest (cache ++ [⟨url, m.timestamp, m.author, m.msgLink⟩]) notices

/-- The hash-collection phase of the handler: embedded urls are fetched
and hashed first, then attachments; a hash present in the allowed set is
dropped, the rest are tagged with their source. -/
def buildHashes (fetch : String → Option (List Bool)) (allowedHashes : List (List Bool))
    (embedded : List String) (atts : List (Option (List Bool))) : List HashMetadata :=
  let fromEmbeds := embedded.filterMap (fun url =>
    match fetch url with
    | some h => if allowedHashes.contains h then none else some ⟨h, "embedded"⟩
    | none => none)
  let fromAtts := atts.filterMap (fun oh =>
    match oh with
    | some h => if allowedHashes.contains h then none else some ⟨h, "attachment"⟩
    | none => none)
  fromEmbeds ++ fromAtts

/-- The `for meta_hash in hashes` loop of the handler: a cache record
within Hamming distance 2 (exclusive) is a match; on a miss the candidate
is inserted; on a match from an embedded source the handler returns
immediately (dropping the remaining candidates and sending nothing),
otherwise a notice naming the stored submitter is emitted. -/
def imageLoop (now : Int) (m : Msg) :
    List HashMetadata → List ImageMetadata → List Notice → List ImageMetadata × List Notice
  | [], cache, notices => (cache, notices)
  | mh :: rest, cache, notices =>
    match cache.find? (fun i => decide (hashDist mh.hash i.hash < 2)) with
    | none => imageLoop now m rest (cache ++ [⟨mh.hash, m.timestamp, m.author, m.msgLink⟩]) notices
    | some r =>
      if mh.source_type == "embedded" then (cache, notices)
      else imageLoop now m rest cache (notices ++ [⟨r.user, r.msg_link, now - r.timestamp⟩])

/-- Model of `Handler::message`, the event handler at the heart of the
bot. `fetch` stands for `get_embedded_hash` (network fetch plus
perceptual hash of an embed url) and `now` for `Utc::now()` at processing
time. Returns the updated shared state together with the notices sent. -/
def message (fetch : String → Option (List Bool)) (now : Int) (st : BotState) (m : Msg) :
    BotState × List Notice :=
  if m.authorBot then (st, [])
  else if containsSub allowPat m.content then (set_allowed st m, [])
  else if is_ignored_type m st.config then (st, [])
  else
    let embedded := (embedUrls m).filter (fun u => !st.allowedLinks.contains u)
    if m.attachments.isEmpty && embedded.isEmpty then (st, [])
    else
      let url_matches := dedupFirst embedded
      let lres := linkLoop now m url_matches st.linkCache []
      let hashes := buildHashes fetch st.allowedHashes embedded m.attachments
      let hres := imageLoop now m hashes st.hashCache []
      ({ st with linkCache := lres.1, hashCache := hres.1 }, lres.2 ++ hres.2)

/-! Helper lemmas about the embedded operations. -/

theorem mem_insertIfAbsent_self {α : Type} [BEq α] [LawfulBEq α] (s : List α) (a : α) :
    a ∈ insertIfAbsent s a := by
  unfold insertIfAbsent
  split
  · next h => simpa using h
  · simp

theorem insertIfAbsent_of_mem {α : Type} [BEq α] [LawfulBEq α] {s : List α} {a : α}
    (h : a ∈ s) : insertIfAbsent s a = s := by
  unfold insertIfAbsent
  simp [h]

theorem mem_insertIfAbsent_of_mem {α : Type} [BEq α] [LawfulBEq α] {s : List α} {a : α}
    (b : α) (h : a ∈ s) : a ∈ insertIfAbsent s b := by
  unfold insertIfAbsent
  split
  · exact h
  · exact List.mem_append_left _ h

theorem mem_foldl_insertIfAbsent {α : Type} [BEq α] [LawfulBEq α] {s : List α} {a : α}
    (l : List α) (h : a ∈ s) : a ∈ l.foldl insertIfAbsent s := by
  induction l generalizing s with
  | nil => exact h
  | cons b bs ih => exact ih (mem_insertIfAbsent_of_mem b h)

theorem mem_foldl_insertIfAbsent_of_mem_list {α : Type} [BEq α] [LawfulBEq α]
    {l : List α} {a : α} (s : List α) (h : a ∈ l) : a ∈ l.foldl insertIfAbsent s := by
  induction l generalizing s with
  | nil => cases h
  | cons b bs ih =>
    rcases List.mem_cons.mp h with rfl | hmem
    · exact mem_foldl_insertIfAbsent bs (mem_insertIfAbsent_self s a)
    · exact ih _ hmem

theorem foldl_insertIfAbsent_idem {α : Type} [BEq α] [LawfulBEq α] (l : List α) (s : List α) :
    l.foldl insertIfAbsent (l.foldl insertIfAbsent s) = l.foldl insertIfAbsent s := by
  induction l generalizing s with
  | nil => rfl
  | cons a as ih =>
    show as.foldl insertIfAbsent
        (insertIfAbsent ((a :: as).foldl insertIfAbsent s) a) = _
    have ha : a ∈ (a :: as).foldl insertIfAbsent s :=
      mem_foldl_insertIfAbsent_of_mem_list s (List.mem_cons_self a as)
    rw [insertIfAbsent_of_mem ha]
    show as.foldl insertIfAbsent (as.foldl insertIfAbsent (insertIfAbsent s a)) = _
    exact ih (insertIfAbsent s a)

theorem mem_dedupFirst_of_mem {l : List String} {a : String} (h : a ∈ l) :
    a ∈ dedupFirst l := by
  induction l with
  | nil => cases h
  | cons x xs ih =>
    rcases List.mem_cons.mp h with rfl | hmem
    · exact List.mem_cons_self _ _
    · unfold dedupFirst
      by_cases hax : a = x
      · exact hax ▸ List.mem_cons_self _ _
      · exact List.mem_cons_of_mem _ (List.mem_filter.mpr ⟨ih hmem, by simp [bne, hax]⟩)

theorem set_allowed_caches (st : BotState) (m : Msg) :
    (set_allowed st m).linkCache = st.linkCache ∧
    (set_allowed st m).hashCache = st.hashCache ∧
    (set_allowed st m).config = st.config := by
  unfold set_allowed
  split <;> simp

theorem message_allow_eq (fetch : String → Option (List Bool)) (now : Int)
    (st : BotState) (m : Msg) (hb : m.authorBot = false)
    (hc : containsSub allowPat m.content = true) :
    message fetch now st m = (set_allowed st m, []) := by
  unfold message
  rw [hb, hc]
  simp

theorem imageLoop_all_embedded (now : Int) (m : Msg) (hs : List HashMetadata) :
    ∀ cache notices, (∀ mh ∈ hs, mh.source_type = "embedded") →
      (imageLoop now m hs cache notices).2 = notices := by
  induction hs with
  | nil => intro cache notices _; rfl
  | cons mh rest ih =>
    intro cache notices hall
    unfold imageLoop
    have hsrc : mh.source_type = "embedded" := hall mh (List.mem_cons_self _ _)
    split
    · exact ih _ _ (fun x hx => hall x (List.mem_cons_of_mem _ hx))
    · simp [hsrc]

theorem buildHashes_no_atts_embedded (fetch : String → Option (List Bool))
    (ah : List (List Bool)) (embedded : List String) :
    ∀ mh ∈ buildHashes fetch ah embedded [], mh.source_type = "embedded" := by
  intro mh hmh
  unfold buildHashes at hmh
  simp only [List.filterMap_nil, List.append_nil] at hmh
  rcases List.mem_filterMap.mp hmh with ⟨url, _, heq⟩
  revert heq
  split
  · split
    · intro h; cases h
    · intro h; cases h; rfl
  · intro h; cases h

theorem linkLoop_length_le (now : Int) (m : Msg) (urls : List String) :
    ∀ cache notices, cache.length ≤ (linkLoop now m urls cache notices).1.length := by
  induction urls with
  | nil => intro cache notices; exact Nat.le_refl _
  | cons url rest ih =>
    intro cache notices
    unfold linkLoop
    split
    · exact ih cache _
    · refine Nat.le_trans ?_ (ih _ _)
      simp

theorem imageLoop_length_le (now : Int) (m : Msg) (hs : List HashMetadata) :
    ∀ cache notices, cache.length ≤ (imageLoop now m hs cache notices).1.length := by
  induction hs with
  | nil => intro cache notices; exact Nat.le_refl _
  | cons mh rest ih =>
    intro cache notices
    unfold imageLoop
    split
    · refine Nat.le_trans ?_ (ih _ _)
      simp
    · split
      · exact Nat.le_refl _
      · exact ih cache _

/-! Claim theorems. -/

/-- C1 counterexample: with `capacity = 1`, two messages carrying two
distinct novel links leave the link cache with 2 records, so a sub-cache
does exceed the configured capacity (the source never evicts;
`with_capacity` only pre-allocates). -/
theorem link_cache_exceeds_capacity :
    ((message (fun _ => none) 0
        (message (fun _ => none) 0 ⟨⟨1, []⟩, [], [], [], []⟩
          ⟨false, [], 1, 0, "l1", [], [some "a"]⟩).1
        ⟨false, [], 2, 0, "l2", [], [some "b"]⟩).1.config.cache_limit = 1) ∧
    ((message (fun _ => none) 0
        (message (fun _ => none) 0 ⟨⟨1, []⟩, [], [], [], []⟩
          ⟨false, [], 1, 0, "l1", [], [some "a"]⟩).1
        ⟨false, [], 2, 0, "l2", [], [some "b"]⟩).1.linkCache.length = 2) := by
  constructor
  · decide
  · decide

/-- C1 amended: the configured capacity does not bound the caches. No
processing step ever removes a record (both sub-cache sizes are
monotone), and a concrete run with `capacity = 1` accumulates 2 link
records: inserting N+1 distinct novel items leaves N+1 records. -/
theorem caches_unbounded_never_shrink :
    (∀ (fetch : String → Option (List Bool)) (now : Int) (st : BotState) (m : Msg),
      st.linkCache.length ≤ (message fetch now st m).1.linkCache.length ∧
      st.hashCache.length ≤ (message fetch now st m).1.hashCache.length) ∧
    ((message (fun _ => none) 0
        (message (fun _ => none) 0 ⟨⟨1, []⟩, [], [], [], []⟩
          ⟨false, [], 3, 0, "k1", [], [some "a"]⟩).1
        ⟨false, [], 4, 0, "k2", [], [some "b"]⟩).1.linkCache.length = 2) := by
  constructor
  · intro fetch now st m
    unfold message
    split
    · exact ⟨Nat.le_refl _, Nat.le_refl _⟩
    split
    · rcases set_allowed_caches st m with ⟨h1, h2, _⟩
      rw [h1, h2]
      exact ⟨Nat.le_refl _, Nat.le_refl _⟩
    split
    · exact ⟨Nat.le_refl _, Nat.le_refl _⟩
    dsimp only
    split
    · exact ⟨Nat.le_refl _, Nat.le_refl _⟩
    exact ⟨linkLoop_length_le _ _ _ _ _, imageLoop_length_le _ _ _ _ _⟩
  · decide

/-- C2 counterexample: the image cache holds hash `[true, true]` posted
by user 1. User 2 posts one message with an embed whose url `"u"` is
novel (the link path inserts it, producing no `Duplicate` verdict) and
whose fetched image hash matches the cache, plus a novel attachment hash
`[false, false]`. The handler emits no notice for the embedded duplicate
even though the link path was novel, and it returns early, so the
attachment candidate is neither evaluated nor cached: the final image
cache still has a single record. -/
theorem embed_dup_drops_attachment_cex :
    (message (fun _ => some [true, true]) 10
        ⟨⟨5, []⟩, [⟨[true, true], 0, 1, "m1"⟩], [], [], []⟩
        ⟨false, [], 2, 10, "m2", [some [false, false]], [some "u"]⟩) =
      (⟨⟨5, []⟩, [⟨[true, true], 0, 1, "m1"⟩], [⟨"u", 10, 2, "m2"⟩], [], []⟩, []) := by
  decide

/-- C2 amended: an image duplicate whose source is an embed suppresses
the notice unconditionally — embedded-source candidates never produce a
notice, whatever verdict the link path reached — and it also aborts the
handler, so the remaining candidates of the message (attachments
included) are neither evaluated, nor reported, nor cached. -/
theorem embedded_dup_suppresses_and_stops (now : Int) (m : Msg)
    (hs : List HashMetadata) (cache : List ImageMetadata) (notices : List Notice) :
    ((∀ mh ∈ hs, mh.source_type = "embedded") →
      (imageLoop now m hs cache notices).2 = notices) ∧
    (∀ (mh : HashMetadata) (rest : List HashMetadata) (r : ImageMetadata),
      cache.find? (fun i => decide (hashDist mh.hash i.hash < 2)) = some r →
      mh.source_type = "embedded" →
      imageLoop now m (mh :: rest) cache notices = (cache, notices)) := by
  constructor
  · exact imageLoop_all_embedded now m hs cache notices
  · intro mh rest r hfind hsrc
    unfold imageLoop
    rw [hfind]
    simp [hsrc]

/-- Witness for the C2 amended theorem at concrete inputs. -/
theorem embedded_dup_suppresses_and_stops_witness :
    (imageLoop 0 ⟨false, [], 2, 0, "w", [], []⟩
        [⟨[true], "embedded"⟩] [⟨[true], 0, 1, "p"⟩] []).2 = [] ∧
    imageLoop 0 ⟨false, [], 2, 0, "w", [], []⟩
        [⟨[true], "embedded"⟩, ⟨[false], "attachment"⟩] [⟨[true], 0, 1, "p"⟩] [] =
      ([⟨[true], 0, 1, "p"⟩], []) := by
  constructor
  · exact (embedded_dup_suppresses_and_stops 0 ⟨false, [], 2, 0, "w", [], []⟩
      [⟨[true], "embedded"⟩] [⟨[true], 0, 1, "p"⟩] []).1 (by decide)
  · exact (embedded_dup_suppresses_and_stops 0 ⟨false, [], 2, 0, "w", [], []⟩
      [⟨[true], "embedded"⟩] [⟨[true], 0, 1, "p"⟩] []).2
      ⟨[true], "embedded"⟩ [⟨[false], "attachment"⟩] ⟨[true], 0, 1, "p"⟩
      (by decide) (by decide)

/-- C3 counterexample. First input: with `ignored_types = ["attachment"]`,
a message carrying one attachment and one embedded link `"u"` is dropped
wholesale — the link, a non-ignored category, is not matched and not
cached, and the state is unchanged. Second input: with
`ignored_types = ["link"]` (the category name the claim uses), embeds are
not ignored at all — the source tests the string `"links"` — so the link
is matched and cached anyway. -/
theorem ignored_category_cex :
    ((message (fun _ => none) 0 ⟨⟨5, ["attachment"]⟩, [], [], [], []⟩
        ⟨false, [], 2, 0, "m", [some [false, false]], [some "u"]⟩) =
      (⟨⟨5, ["attachment"]⟩, [], [], [], []⟩, [])) ∧
    ((message (fun _ => none) 0 ⟨⟨5, ["link"]⟩, [], [], [], []⟩
        ⟨false, [], 2, 0, "m", [], [some "u"]⟩).1.linkCache =
      [⟨"u", 0, 2, "m"⟩]) := by
  constructor
  · decide
  · decide

/-- C3 amended: the source-type filter is all-or-nothing per message:
when the configured ignored types hit the message (the string
`"attachment"` ignores messages with attachments, the string `"links"` —
not `"link"` — ignores messages with embeds), the whole message is
skipped: no category of its content is matched or cached and no notice is
sent. The filter runs once per message, after the bot and allow-command
checks but before any candidate processing. -/
theorem ignored_type_skips_entire_message (fetch : String → Option (List Bool))
    (now : Int) (st : BotState) (m : Msg) (hb : m.authorBot = false)
    (hc : containsSub allowPat m.content = false)
    (hi : is_ignored_type m st.config = true) :
    message fetch now st m = (st, []) := by
  unfold message
  rw [hb, hc, hi]
  simp

/-- Witness for the C3 amended theorem at concrete inputs. -/
theorem ignored_type_skips_entire_message_witness :
    message (fun _ => none) 0 ⟨⟨5, ["links"]⟩, [], [], [], []⟩
        ⟨false, [], 2, 0, "m", [], [some "u"]⟩ =
      (⟨⟨5, ["links"]⟩, [], [], [], []⟩, []) :=
  ignored_type_skips_entire_message (fun _ => none) 0
    ⟨⟨5, ["links"]⟩, [], [], [], []⟩ ⟨false, [], 2, 0, "m", [], [some "u"]⟩
    (by decide) (by decide) (by decide)

theorem buildHashes_nil_of_allowed (fetch : String → Option (List Bool))
    (ah : List (List Bool)) (atts : List (Option (List Bool)))
    (h : ∀ hx ∈ atts.filterMap id, ah.contains hx = true) :
    buildHashes fetch ah [] atts = [] := by
  unfold buildHashes
  simp only [List.filterMap_nil, List.nil_append]
  refine List.filterMap_eq_nil_iff.mpr (fun oh hoh => ?_)
  cases oh with
  | none => rfl
  | some hx =>
    have hmem : hx ∈ ah := by
      simpa using h hx (List.mem_filterMap.mpr ⟨some hx, hoh, rfl⟩)
    simp [hmem]

/-- C4 (confirmed): a message all of whose content is in the Allow
Registry — every embed url in the allowed-links set, every attachment
hash in the allowed-hashes set — produces no notice and leaves the state
untouched: nothing is inserted into either cache. -/
theorem allowed_content_no_notice_no_insert (fetch : String → Option (List Bool))
    (now : Int) (st : BotState) (m : Msg)
    (hc : containsSub allowPat m.content = false)
    (hl : ∀ u ∈ embedUrls m, st.allowedLinks.contains u = true)
    (hh : ∀ hx ∈ m.attachments.filterMap id, st.allowedHashes.contains hx = true) :
    message fetch now st m = (st, []) := by
  have hemb : (embedUrls m).filter (fun u => !decide (u ∈ st.allowedLinks)) = [] :=
    List.filter_eq_nil_iff.mpr (fun u hu => by
      have : u ∈ st.allowedLinks := by simpa using hl u hu
      simp [this])
  by_cases hb : m.authorBot
  · simp [message, hb]
  by_cases hi : is_ignored_type m st.config
  · simp [message, hb, hc, hi]
  by_cases he : m.attachments.isEmpty
  · simp [message, hb, hc, hi, hemb, he]
  · simp [message, hb, hc, hi, hemb, he,
      buildHashes_nil_of_allowed fetch st.allowedHashes m.attachments hh,
      dedupFirst, linkLoop, imageLoop]

/-- Witness for C4 at concrete inputs: the allowed url `"u"` and the
allowed hash `[true]` are posted again and nothing happens. -/
theorem allowed_content_no_notice_no_insert_witness :
    message (fun _ => none) 3 ⟨⟨5, []⟩, [], [], ["u"], [[true]]⟩
        ⟨false, [], 2, 3, "m", [some [true]], [some "u"]⟩ =
      (⟨⟨5, []⟩, [], [], ["u"], [[true]]⟩, []) :=
  allowed_content_no_notice_no_insert (fun _ => none) 3
    ⟨⟨5, []⟩, [], [], ["u"], [[true]]⟩
    ⟨false, [], 2, 3, "m", [some [true]], [some "u"]⟩
    (by decide) (by decide) (by decide)

/-- C5 (confirmed): the image match rule is Hamming distance strictly
below 2. An attachment candidate whose hash is at distance 0 or 1 from
some stored record is treated as a duplicate (a notice is emitted and
nothing is inserted); one at distance at least 2 from every stored record
is treated as novel (it is inserted and no notice is emitted). -/
theorem image_match_iff_dist_lt_two (now : Int) (m : Msg) (h : List Bool)
    (cache : List ImageMetadata) :
    ((∃ r ∈ cache, hashDist h r.hash ≤ 1) →
      (imageLoop now m [⟨h, "attachment"⟩] cache []).1 = cache ∧
      (imageLoop now m [⟨h, "attachment"⟩] cache []).2.length = 1) ∧
    ((∀ r ∈ cache, 2 ≤ hashDist h r.hash) →
      imageLoop now m [⟨h, "attachment"⟩] cache [] =
        (cache ++ [⟨h, m.timestamp, m.author, m.msgLink⟩], [])) := by
  constructor
  · rintro ⟨r, hr, hd⟩
    have hsome : (cache.find? (fun i => decide (hashDist h i.hash < 2))).isSome :=
      List.find?_isSome.mpr ⟨r, hr, by simpa [Nat.lt_succ_iff] using hd⟩
    rcases Option.isSome_iff_exists.mp hsome with ⟨r0, hfind⟩
    unfold imageLoop
    rw [hfind]
    simp [imageLoop]
  · intro hfar
    have hnone : cache.find? (fun i => decide (hashDist h i.hash < 2)) = none :=
      List.find?_eq_none.mpr (fun r hr => by simpa using Nat.not_lt.mpr (hfar r hr))
    unfold imageLoop
    rw [hnone]
    simp [imageLoop]

/-- Witness for C5 at concrete inputs: a distance-1 candidate matches a
one-record cache; a distance-2 candidate is inserted instead. -/
theorem image_match_iff_dist_lt_two_witness :
    ((imageLoop 0 ⟨false, [], 2, 0, "w", [], []⟩
        [⟨[true, false], "attachment"⟩] [⟨[true, true], 0, 1, "p"⟩] []).1 =
      [⟨[true, true], 0, 1, "p"⟩] ∧
    (imageLoop 0 ⟨false, [], 2, 0, "w", [], []⟩
        [⟨[true, false], "attachment"⟩] [⟨[true, true], 0, 1, "p"⟩] []).2.length = 1) ∧
    imageLoop 0 ⟨false, [], 2, 0, "w", [], []⟩
        [⟨[false, false], "attachment"⟩] [⟨[true, true], 0, 1, "p"⟩] [] =
      ([⟨[true, true], 0, 1, "p"⟩, ⟨[false, false], 0, 2, "w"⟩], []) :=
  ⟨(image_match_iff_dist_lt_two 0 ⟨false, [], 2, 0, "w", [], []⟩
      [true, false] [⟨[true, true], 0, 1, "p"⟩]).1 ⟨⟨[true, true], 0, 1, "p"⟩, by decide, by decide⟩,
   (image_match_iff_dist_lt_two 0 ⟨false, [], 2, 0, "w", [], []⟩
      [false, false] [⟨[true, true], 0, 1, "p"⟩]).2 (by decide)⟩

theorem message_single_embed (fetch : String → Option (List Bool)) (now : Int)
    (st : BotState) (a : Nat) (t : Int) (l : String) (u : String)
    (hig : st.config.ignored_types.contains "links" = false)
    (hal : st.allowedLinks.contains u = false) :
    (message fetch now st ⟨false, [], a, t, l, [], [some u]⟩).1.linkCache =
      (linkLoop now ⟨false, [], a, t, l, [], [some u]⟩ [u] st.linkCache []).1 ∧
    (message fetch now st ⟨false, [], a, t, l, [], [some u]⟩).1.allowedLinks = st.allowedLinks ∧
    (message fetch now st ⟨false, [], a, t, l, [], [some u]⟩).1.config = st.config ∧
    (message fetch now st ⟨false, [], a, t, l, [], [some u]⟩).2 =
      (linkLoop now ⟨false, [], a, t, l, [], [some u]⟩ [u] st.linkCache []).2 := by
  have hig2 : "links" ∉ st.config.ignored_types := by simpa using hig
  have hal2 : u ∉ st.allowedLinks := by simpa using hal
  have hcz : containsSub allowPat [] = false := by decide
  have hnot : (imageLoop now ⟨false, [], a, t, l, [], [some u]⟩
      (buildHashes fetch st.allowedHashes [u] []) st.hashCache []).2 = [] :=
    imageLoop_all_embedded _ _ _ _ _ (buildHashes_no_atts_embedded fetch st.allowedHashes [u])
  simp [message, is_ignored_type, embedUrls, dedupFirst, hal2, hig2, hcz, hnot]

/-- C6 (confirmed): link deduplication is two-post exact matching. With
url `u` absent from the allow registry and from the cache, the first post
of `u` yields no notice; the second post yields exactly one notice naming
the first submitter and linking the first message; and a posting of any
other string `v` — including a case or trailing-slash variant of `u` — is
treated as novel content (no notice; lookup is exact string equality with
no normalization). -/
theorem link_dedup_exact_two_posts (fetch : String → Option (List Bool))
    (now t1 t2 t3 : Int) (a b c : Nat) (l1 l2 l3 : String) (cfg : Config)
    (al : List String) (ah : List (List Bool)) (u v : String)
    (hu : al.contains u = false) (hv : al.contains v = false)
    (huv : (u == v) = false)
    (hig : cfg.ignored_types.contains "links" = false) :
    (message fetch now ⟨cfg, [], [], al, ah⟩ ⟨false, [], a, t1, l1, [], [some u]⟩).2 = [] ∧
    (message fetch now
        (message fetch now ⟨cfg, [], [], al, ah⟩ ⟨false, [], a, t1, l1, [], [some u]⟩).1
        ⟨false, [], b, t2, l2, [], [some u]⟩).2 = [⟨a, l1, now - t1⟩] ∧
    (message fetch now
        (message fetch now
          (message fetch now ⟨cfg, [], [], al, ah⟩ ⟨false, [], a, t1, l1, [], [some u]⟩).1
          ⟨false, [], b, t2, l2, [], [some u]⟩).1
        ⟨false, [], c, t3, l3, [], [some v]⟩).2 = [] := by
  obtain ⟨hL1, hA1, hC1, hN1⟩ :=
    message_single_embed fetch now ⟨cfg, [], [], al, ah⟩ a t1 l1 u hig hu
  have hLres1 : linkLoop now ⟨false, [], a, t1, l1, [], [some u]⟩ [u] [] [] =
      ([⟨u, t1, a, l1⟩], []) := rfl
  obtain ⟨hL2, hA2, hC2, hN2⟩ :=
    message_single_embed fetch now
      (message fetch now ⟨cfg, [], [], al, ah⟩ ⟨false, [], a, t1, l1, [], [some u]⟩).1
      b t2 l2 u (by rw [hC1]; exact hig) (by rw [hA1]; exact hu)
  have hcache1 :
      (message fetch now ⟨cfg, [], [], al, ah⟩ ⟨false, [], a, t1, l1, [], [some u]⟩).1.linkCache =
        [⟨u, t1, a, l1⟩] := by
    rw [hL1]
    simp [hLres1]
  have hLres2 : linkLoop now ⟨false, [], b, t2, l2, [], [some u]⟩ [u] [⟨u, t1, a, l1⟩] [] =
      ([⟨u, t1, a, l1⟩], [⟨a, l1, now - t1⟩]) := by
    simp [linkLoop, List.find?]
  obtain ⟨hL3, hA3, hC3, hN3⟩ :=
    message_single_embed fetch now
      (message fetch now
        (message fetch now ⟨cfg, [], [], al, ah⟩ ⟨false, [], a, t1, l1, [], [some u]⟩).1
        ⟨false, [], b, t2, l2, [], [some u]⟩).1
      c t3 l3 v (by rw [hC2, hC1]; exact hig) (by rw [hA2, hA1]; exact hv)
  have hcache2 :
      (message fetch now
        (message fetch now ⟨cfg, [], [], al, ah⟩ ⟨false, [], a, t1, l1, [], [some u]⟩).1
        ⟨false, [], b, t2, l2, [], [some u]⟩).1.linkCache = [⟨u, t1, a, l1⟩] := by
    rw [hL2, hcache1, hLres2]
  have hLres3 : linkLoop now ⟨false, [], c, t3, l3, [], [some v]⟩ [v] [⟨u, t1, a, l1⟩] [] =
      ([⟨u, t1, a, l1⟩, ⟨v, t3, c, l3⟩], []) := by
    simp [linkLoop, List.find?, huv]
  refine ⟨?_, ?_, ?_⟩
  · rw [hN1, hLres1]
  · rw [hN2, hcache1, hLres2]
  · rw [hN3, hcache2, hLres3]

/-- Witness for C6 at concrete inputs. -/
theorem link_dedup_exact_two_posts_witness :
    (message (fun _ => none) 9 ⟨⟨3, []⟩, [], [], [], []⟩
        ⟨false, [], 1, 4, "p1", [], [some "https://A.test/x"]⟩).2 = [] ∧
    (message (fun _ => none) 9
        (message (fun _ => none) 9 ⟨⟨3, []⟩, [], [], [], []⟩
          ⟨false, [], 1, 4, "p1", [], [some "https://A.test/x"]⟩).1
        ⟨false, [], 2, 5, "p2", [], [some "https://A.test/x"]⟩).2 = [⟨1, "p1", 9 - 4⟩] ∧
    (message (fun _ => none) 9
        (message (fun _ => none) 9
          (message (fun _ => none) 9 ⟨⟨3, []⟩, [], [], [], []⟩
            ⟨false, [], 1, 4, "p1", [], [some "https://A.test/x"]⟩).1
          ⟨false, [], 2, 5, "p2", [], [some "https://A.test/x"]⟩).1
        ⟨false, [], 3, 6, "p3", [], [some "https://a.test/x/"]⟩).2 = [] :=
  link_dedup_exact_two_posts (fun _ => none) 9 4 5 6 1 2 3 "p1" "p2" "p3"
    ⟨3, []⟩ [] [] "https://A.test/x" "https://a.test/x/"
    (by decide) (by decide) (by decide) (by decide)

/-- C7 counterexample: a configured capacity of `0` is accepted —
`"0".parse::<u64>()` succeeds — so the process starts with
`cache_limit = 0` instead of failing, contrary to the claim that a
capacity of 0 is rejected at configuration time. -/
theorem capacity_zero_accepted :
    read_config (some "0") (some "") = some ⟨0, [""]⟩ := by
  decide

/-- C7 amended: configuration loading is fatal on a missing variable and
on any capacity string that does not parse as a `u64` — in particular
every negative capacity (a leading minus sign) is rejected — but a
capacity of `0` parses and is accepted, starting the system with a zero
limit. -/
theorem config_rejects_malformed_accepts_zero :
    (∀ (s : List Char) (rest : Option String),
      read_config (some (String.mk ('-' :: s))) rest = none) ∧
    (∀ rest : Option String, read_config none rest = none) ∧
    read_config (some "0") (some "") = some ⟨0, [""]⟩ := by
  refine ⟨?_, ?_, ?_⟩
  · intro s rest
    rfl
  · intro rest
    rfl
  · decide

theorem set_allowed_idem (st : BotState) (m : Msg) :
    set_allowed (set_allowed st m) m = set_allowed st m := by
  unfold set_allowed
  by_cases he : m.embeds.isEmpty
  · simp [he, foldl_insertIfAbsent_idem]
  · simp [he, foldl_insertIfAbsent_idem]

/-- C8 (confirmed): the allow operation is idempotent. Processing the
same allow command twice leaves the state exactly as processing it once,
and after allowing a url that was not yet exempt the allowed-links set
holds exactly one entry for it. -/
theorem allow_idempotent (fetch : String → Option (List Bool)) (now : Int)
    (st : BotState) (m : Msg) (u : String)
    (hb : m.authorBot = false) (hc : containsSub allowPat m.content = true)
    (hemb : m.embeds = [some u]) (hal : st.allowedLinks.contains u = false) :
    (message fetch now (message fetch now st m).1 m).1 = (message fetch now st m).1 ∧
    (message fetch now st m).1.allowedLinks.count u = 1 := by
  have hal2 : u ∉ st.allowedLinks := by simpa using hal
  have h1 := message_allow_eq fetch now st m hb hc
  constructor
  · rw [h1]
    dsimp only
    rw [message_allow_eq fetch now (set_allowed st m) m hb hc]
    exact set_allowed_idem st m
  · rw [h1]
    dsimp only
    have hlinks : (set_allowed st m).allowedLinks = st.allowedLinks ++ [u] := by
      unfold set_allowed
      simp [hemb, embedUrls, dedupFirst, insertIfAbsent, hal2]
    rw [hlinks]
    have hz : st.allowedLinks.count u = 0 := List.count_eq_zero.mpr hal2
    simp [List.count_append, hz]

/-- Witness for C8 at concrete inputs. -/
theorem allow_idempotent_witness :
    (message (fun _ => none) 0
        (message (fun _ => none) 0 ⟨⟨5, []⟩, [], [], [], []⟩
          ⟨false, "--allow".data, 1, 0, "w", [], [some "u"]⟩).1
        ⟨false, "--allow".data, 1, 0, "w", [], [some "u"]⟩).1 =
      (message (fun _ => none) 0 ⟨⟨5, []⟩, [], [], [], []⟩
        ⟨false, "--allow".data, 1, 0, "w", [], [some "u"]⟩).1 ∧
    (message (fun _ => none) 0 ⟨⟨5, []⟩, [], [], [], []⟩
        ⟨false, "--allow".data, 1, 0, "w", [], [some "u"]⟩).1.allowedLinks.count "u" = 1 :=
  allow_idempotent (fun _ => none) 0 ⟨⟨5, []⟩, [], [], [], []⟩
    ⟨false, "--allow".data, 1, 0, "w", [], [some "u"]⟩ "u"
    (by decide) (by decide) (by decide) (by decide)

/-- C9 (confirmed): a non-bot message whose text contains the substring
"--allow" anywhere — also incidentally, e.g. inside "--allowance" — is
processed as an allow command: the handler applies `set_allowed` and
stops. Every embed url of the message lands in the allowed-links set and
every successfully hashed attachment in the allowed-hashes set, no
notice is emitted, and neither content cache is touched. -/
theorem allow_command_substring (fetch : String → Option (List Bool)) (now : Int)
    (st : BotState) (m : Msg)
    (hb : m.authorBot = false) (hc : containsSub allowPat m.content = true) :
    message fetch now st m = (set_allowed st m, []) ∧
    (set_allowed st m).linkCache = st.linkCache ∧
    (set_allowed st m).hashCache = st.hashCache ∧
    (embedUrls m).all (fun u => (set_allowed st m).allowedLinks.contains u) = true ∧
    (m.attachments.filterMap id).all
      (fun hx => (set_allowed st m).allowedHashes.contains hx) = true := by
  refine ⟨message_allow_eq fetch now st m hb hc,
    (set_allowed_caches st m).1, (set_allowed_caches st m).2.1, ?_, ?_⟩
  · refine List.all_eq_true.mpr (fun u hu => ?_)
    unfold set_allowed
    by_cases he : m.embeds.isEmpty
    · rw [List.isEmpty_iff] at he
      simp [embedUrls, he] at hu
    · simp only [he, Bool.not_false, if_true]
      have hmem := mem_foldl_insertIfAbsent_of_mem_list
        st.allowedLinks (mem_dedupFirst_of_mem hu)
      simpa using hmem
  · refine List.all_eq_true.mpr (fun hx hmem => ?_)
    unfold set_allowed
    have hin := mem_foldl_insertIfAbsent_of_mem_list
      (if !m.embeds.isEmpty then
          { st with allowedLinks :=
              (dedupFirst (embedUrls m)).foldl insertIfAbsent st.allowedLinks }
        else st).allowedHashes hmem
    simpa using hin

/-- Witness for C9 at concrete inputs: "--allow" occurs only inside the
word "--allowance" and the message is still treated as an allow command. -/
theorem allow_command_substring_witness :
    message (fun _ => none) 0 ⟨⟨5, []⟩, [], [], [], []⟩
        ⟨false, "check my --allowance please".data, 1, 0, "w",
          [some [true]], [some "u"]⟩ =
      (set_allowed ⟨⟨5, []⟩, [], [], [], []⟩
        ⟨false, "check my --allowance please".data, 1, 0, "w",
          [some [true]], [some "u"]⟩, []) ∧
    (set_allowed ⟨⟨5, []⟩, [], [], [], []⟩
        ⟨false, "check my --allowance please".data, 1, 0, "w",
          [some [true]], [some "u"]⟩).linkCache = [] ∧
    (set_allowed ⟨⟨5, []⟩, [], [], [], []⟩
        ⟨false, "check my --allowance please".data, 1, 0, "w",
          [some [true]], [some "u"]⟩).hashCache = [] ∧
    (embedUrls ⟨false, "check my --allowance please".data, 1, 0, "w",
          [some [true]], [some "u"]⟩).all
      (fun u => (set_allowed ⟨⟨5, []⟩, [], [], [], []⟩
        ⟨false, "check my --allowance please".data, 1, 0, "w",
          [some [true]], [some "u"]⟩).allowedLinks.contains u) = true ∧
    (Msg.attachments ⟨false, "check my --allowance please".data, 1, 0, "w",
          [some [true]], [some "u"]⟩ |>.filterMap id).all
      (fun hx => (set_allowed ⟨⟨5, []⟩, [], [], [], []⟩
        ⟨false, "check my --allowance please".data, 1, 0, "w",
          [some [true]], [some "u"]⟩).allowedHashes.contains hx) = true :=
  allow_command_substring (fun _ => none) 0 ⟨⟨5, []⟩, [], [], [], []⟩
    ⟨false, "check my --allowance please".data, 1, 0, "w", [some [true]], [some "u"]⟩
    (by decide) (by decide)

/-- C10 (confirmed): the allow filter for images is exact set membership,
not the near-match rule. The hash `[false, false]` is allowed; the
candidate `[true, false]` is at Hamming distance 1 from it — which the
match engine would treat as the same content — yet the candidate is not
itself allowed, so it passes the filter, is evaluated against the image
cache, and is reported as a duplicate of the stored record (here it
matches a cached record with that exact hash, posted by user 1). -/
theorem allow_image_exact_not_near :
    hashDist [false, false] [true, false] = 1 ∧
    [[false, false]].contains [true, false] = false ∧
    message (fun _ => none) 10
        ⟨⟨5, []⟩, [⟨[true, false], 0, 1, "m0"⟩], [], [], [[false, false]]⟩
        ⟨false, [], 2, 10, "m2", [some [true, false]], []⟩ =
      (⟨⟨5, []⟩, [⟨[true, false], 0, 1, "m0"⟩], [], [], [[false, false]]⟩,
        [⟨1, "m0", 10⟩]) := by
  refine ⟨by decide, by decide, by decide⟩
